import Mathlib

/-!
A verification development for `workflow.py`, a small in-process workflow
engine.  Jobs are ordered lists of steps; each step names a registered
action and declares input/output context keys.  The engine executes steps
sequentially against a mutable string-keyed context, manages the system
variables `$job_run_id`, `$job_status`, `$current_step` and `$on_progress`,
and dispatches `on_finish` / `on_except` / `on_progress` hooks.

Modelling conventions:
* The Python `Context` (a `dict`) is a `List (String × Value)` with
  dict-style insertion (update in place when the key is present, append
  otherwise) and first-match lookup.
* Mutation is explicit state passing: actions and hooks take a context and
  return a new one, or an exception value.  A raising action/hook leaves the
  context as it was at entry (mutations made in place before a raise are
  not observable in the claims under study).
* The source stores the resolved `on_progress` callable directly in the
  context; since registries are fixed during a run (registration is a
  setup-phase operation), we store the hook's name (`Value.vhook`) and
  resolve it from the registry at call time, which is extensionally the
  same.
* `uuid.uuid4()` is modelled by passing the generated run id as an explicit
  argument `runId` to `execute_job`.
* `execute_job` additionally returns a list of observable `Event`s (action
  invocations and hook invocations, with the relevant context lookups
  snapshotted at invocation time); this trace instruments the temporal
  claims and does not influence the computed result.
* The registration-time signature validation (done with `inspect` in the
  source) is out of scope, as is the thread pool: `submit_job` resolves to
  running `execute_job` and wrapping its outcome in a `JobFuture`.
-/

/-- Runtime values stored in a context: strings (all the payloads the claims
need), the Python `None` marker, and a bound progress-hook handle (the
source stores the resolved callable under `$on_progress`; we store the
hook's registry name, see the module docstring). -/
inductive Value where
  | vstr : String → Value
  | vnone : Value
  | vhook : String → Value
deriving DecidableEq

/-- The exception taxonomy of `workflow.py`.  `unregisteredHook` mirrors the
`UnregisteredHookError` class, which the source defines but never raises.
`userError` stands for an arbitrary exception raised by user action/hook
code. -/
inductive EValue where
  | unregisteredAction : String → EValue
  | unregisteredHook : String → EValue
  | missingInput : String → EValue
  | userError : String → EValue
deriving DecidableEq

/-- A context: Python dict with string keys. -/
abbrev Context := List (String × Value)

/-- First-match lookup, `k in context` / `context[k]`. -/
def ctxLookup : Context → String → Option Value
  | [], _ => none
  | (k', v) :: rest, k => if k' = k then some v else ctxLookup rest k

/-- `context.get(k)` with Python's `None` default. -/
def ctxGet (c : Context) (k : String) : Value :=
  (ctxLookup c k).getD Value.vnone

/-- `context[k] = v` with dict semantics: when the key is present its first
binding is updated in place (keys never repeat in a dict), otherwise the new
binding is appended at the end (Python 3.7+ insertion order). -/
def ctxInsert : Context → String → Value → Context
  | [], k, v => [(k, v)]
  | (k', w) :: rest, k, v =>
    if k' = k then (k, v) :: rest else (k', w) :: ctxInsert rest k v

/-- The keys of a context. -/
def ctxKeys (c : Context) : List String := c.map Prod.fst

/-- An action function `(inputs, context) -> None`: mutates the context or
raises. -/
abbrev ActionFunction := List Value → Context → Except EValue Context

/-- A hook function `(context) -> None`: mutates the context or raises. -/
abbrev JobHook := Context → Except EValue Context

/-- A step of a job: an action name plus declared input and output keys. -/
structure Step where
  action : String
  input : List String
  output : List String
deriving DecidableEq

/-- A job definition.  The optional hook fields model the presence or
absence of the corresponding dict keys in the Python job definition. -/
structure Job where
  name : String
  env : Context
  steps : List Step
  output : List String
  on_finish : Option String
  on_except : Option String
  on_progress : Option String

/-- The engine's two registries (`actions_registry`, `hooks_registry`). -/
structure WorkflowEngine where
  actions_registry : String → Option ActionFunction
  hooks_registry : String → Option JobHook

/-- `register_action`: store the function under the name, overwriting any
prior registration (dict assignment).  The `inspect`-based signature guard
of the source is out of scope (spec §1 excludes it as a thin non-behavioral
guard). -/
def register_action (engine : WorkflowEngine) (name : String) (fn : ActionFunction) :
    WorkflowEngine :=
  ⟨fun n => if n = name then some fn else engine.actions_registry n,
   engine.hooks_registry⟩

/-- `register_hook`: same overwrite semantics for the hooks registry. -/
def register_hook (engine : WorkflowEngine) (name : String) (fn : JobHook) :
    WorkflowEngine :=
  ⟨engine.actions_registry,
   fun n => if n = name then some fn else engine.hooks_registry n⟩

/-- Observable events of a job run, recorded at invocation time:
`action name` when an action is invoked; `progress cur` when the bound
`$on_progress` hook is invoked, with `cur` the context's `$current_step` at
that moment; `finishHook st` / `exceptHook st cur` when the `on_finish` /
`on_except` hook is invoked, with the context's `$job_status` (and
`$current_step`) at that moment. -/
inductive Event where
  | action : String → Event
  | progress : Option Value → Event
  | finishHook : Option Value → Event
  | exceptHook : Option Value → Option Value → Event
deriving DecidableEq

/-- Is this an action-invocation event? -/
def Event.isAction : Event → Bool
  | Event.action _ => true
  | _ => false

/-- Is this a terminal (finish/except) hook event? -/
def Event.isTerminalHook : Event → Bool
  | Event.finishHook _ => true
  | Event.exceptHook _ _ => true
  | _ => false

/-- The output-commit pass at the end of `execute_step`:
`for output in outputs: context[output] = context.get(output)`.
Note `context.get(output)` defaults to `None`, so an absent output key is
created and bound to `None`. -/
def commitOutputs (outs : List String) (c : Context) : Context :=
  outs.foldl (fun c k => ctxInsert c k (ctxGet c k)) c

/-- `WorkflowEngine.execute_step`.  Faithful to the source's order: the
input list is resolved (with the literal key string as `get` default), then
the action is resolved from the registry (raising `UnregisteredActionError`
if absent), then each declared input key is checked for presence (raising
`MissingInputError` on the first absent one), then the action is invoked,
then the outputs are committed.  The returned event list records the action
invocation (if reached). -/
def execute_step (engine : WorkflowEngine) (step : Step) (context : Context) :
    Except EValue Context × List Event :=
  let inputs := step.input.map (fun i => (ctxLookup context i).getD (Value.vstr i))
  match engine.actions_registry step.action with
  | none => (Except.error (EValue.unregisteredAction step.action), [])
  | some action =>
    match step.input.find? (fun i => (ctxLookup context i).isNone) with
    | some i => (Except.error (EValue.missingInput i), [])
    | none =>
      match action inputs context with
      | Except.error e => (Except.error e, [Event.action step.action])
      | Except.ok c1 => (Except.ok (commitOutputs step.output c1), [Event.action step.action])

/-- The per-step progress dispatch of `execute_job`:
`if "$on_progress" in context: context["$on_progress"](context)`.
A bound handle is resolved from the registry by its captured name (see the
module docstring); a non-handle value under `$on_progress` is Python's
`TypeError` on call, modelled as a user error. -/
def callProgress (engine : WorkflowEngine) (c : Context) :
    Except EValue Context × List Event :=
  match ctxLookup c "$on_progress" with
  | none => (Except.ok c, [])
  | some (Value.vhook name) =>
    match engine.hooks_registry name with
    | some h => (h c, [Event.progress (ctxLookup c "$current_step")])
    | none => (Except.error (EValue.userError "stale hook"), [])
  | some _ => (Except.error (EValue.userError "not callable"), [])

/-- One iteration of the step loop in `execute_job`: set `$current_step`,
dispatch the progress hook if bound, run the step.  Returns the context at
completion or at failure, the failure (if any), and the events. -/
def runStep (engine : WorkflowEngine) (step : Step) (c : Context) :
    Context × Option EValue × List Event :=
  let c1 := ctxInsert c "$current_step" (Value.vstr step.action)
  let p := callProgress engine c1
  match p.1 with
  | Except.error e => (c1, some e, p.2)
  | Except.ok c2 =>
    let q := execute_step engine step c2
    match q.1 with
    | Except.error e => (c2, some e, p.2 ++ q.2)
    | Except.ok c3 => (c3, none, p.2 ++ q.2)

/-- The step loop of `execute_job`: runs steps in order, stopping at the
first failure. -/
def runSteps (engine : WorkflowEngine) : List Step → Context → Context × Option EValue × List Event
  | [], c => (c, none, [])
  | step :: rest, c =>
    let p := runStep engine step c
    match p.2.1 with
    | some e => (p.1, some e, p.2.2)
    | none =>
      let q := runSteps engine rest p.1
      (q.1, q.2.1, p.2.2 ++ q.2.2)

/-- `if name? in job and job[name?] in self.hooks_registry`: a hook is
dispatched only when the job names it and the name is registered. -/
def resolveHook (engine : WorkflowEngine) : Option String → Option JobHook
  | none => none
  | some n => engine.hooks_registry n

/-- The `except` branch of `execute_job`: set `$job_status = FAILED`, invoke
the `on_except` hook when the job names a registered one, then re-raise.
If the hook itself raises, its exception propagates in place of the original
(the source's `raise e` is never reached in that case — Python's exception
from inside the `except` block replaces the flow). -/
def failPath (engine : WorkflowEngine) (job : Job) (e : EValue) (c : Context)
    (tr : List Event) : Except EValue Context × List Event :=
  let cf := ctxInsert c "$job_status" (Value.vstr "FAILED")
  match resolveHook engine job.on_except with
  | none => (Except.error e, tr)
  | some h =>
    let ev := Event.exceptHook (ctxLookup cf "$job_status") (ctxLookup cf "$current_step")
    match h cf with
    | Except.ok _ => (Except.error e, tr ++ [ev])
    | Except.error e2 => (Except.error e2, tr ++ [ev])

/-- Binding of the progress hook into the context:
`if "on_progress" in job and job["on_progress"] in self.hooks_registry:
context["$on_progress"] = self.hooks_registry[job["on_progress"]]`. -/
def bindProgress (engine : WorkflowEngine) (job : Job) (c : Context) : Context :=
  match job.on_progress with
  | some name =>
    if (engine.hooks_registry name).isSome then
      ctxInsert c "$on_progress" (Value.vhook name)
    else c
  | none => c

/-- The context at the top of `execute_job`'s step loop: a copy of the env
with `$job_run_id` and `$job_status = RUNNING` set, and the progress hook
bound if declared and registered. -/
def initContext (engine : WorkflowEngine) (job : Job) (runId : String) : Context :=
  bindProgress engine job
    (ctxInsert (ctxInsert job.env "$job_run_id" (Value.vstr runId))
      "$job_status" (Value.vstr "RUNNING"))

/-- `WorkflowEngine.execute_job`.  The `try` block covers the step loop,
the `FINISHED` status write and the `on_finish` dispatch; an exception from
any of these routes through `failPath`. -/
def execute_job (engine : WorkflowEngine) (job : Job) (runId : String) :
    Except EValue Context × List Event :=
  let p := runSteps engine job.steps (initContext engine job runId)
  match p.2.1 with
  | some e => failPath engine job e p.1 p.2.2
  | none =>
    let c3 := ctxInsert p.1 "$job_status" (Value.vstr "FINISHED")
    match resolveHook engine job.on_finish with
    | none => (Except.ok c3, p.2.2)
    | some h =>
      let ev := Event.finishHook (ctxLookup c3 "$job_status")
      match h c3 with
      | Except.ok c4 => (Except.ok c4, p.2.2 ++ [ev])
      | Except.error e => failPath engine job e c3 (p.2.2 ++ [ev])

/-- Python's `k.startswith("$")` on a string: its first character is the
system-variable sigil.  (`String.startsWith` itself does not reduce in the
kernel, so the check is modelled on the character list.) -/
def startsDollar (s : String) : Bool :=
  match s.data with
  | [] => false
  | ch :: _ => ch = '$'

/-- The first half of `JobFuture.wait`'s result:
`ret = \x7boutput: context.get(output) for output in self._job['output']\x7d`. -/
def fillOutputs (outs : List String) (c : Context) : Context :=
  outs.foldl (fun m k => ctxInsert m k (ctxGet c k)) []

/-- The second half of `JobFuture.wait`'s result:
`ret.update(\x7bk: v for k, v in context.items() if k.startswith("$")\x7d)`. -/
def sysOverlay (c : Context) (m : Context) : Context :=
  (c.filter (fun p => startsDollar p.1)).foldl (fun m p => ctxInsert m p.1 p.2) m

/-- The result map `JobFuture.wait` builds on success. -/
def buildResult (job : Job) (c : Context) : Context :=
  sysOverlay c (fillOutputs job.output c)

/-- `JobFuture`: the resolved outcome of the submitted `execute_job` call
(`_future`), the job definition (`_job`) and the captured exception
(`_exception`). -/
structure JobFuture where
  future : Except EValue Context
  job : Job
  exc : Option EValue

/-- `JobFuture.wait`.  `future.result()` re-raises the job's exception on
every call; the `except` block captures it into `_exception` on the first
call and re-raises the caught exception. -/
def JobFuture.wait (jf : JobFuture) : Except EValue Context × JobFuture :=
  match jf.future with
  | Except.error e =>
    match jf.exc with
    | none => (Except.error e, ⟨jf.future, jf.job, some e⟩)
    | some _ => (Except.error e, jf)
  | Except.ok context =>
    match jf.exc with
    | some ex => (Except.error ex, jf)
    | none => (Except.ok (buildResult jf.job context), jf)

/-! ### Context lemmas -/

lemma ctxLookup_ctxInsert (c : Context) (k : String) (v : Value) (k' : String) :
    ctxLookup (ctxInsert c k v) k' = if k = k' then some v else ctxLookup c k' := by
  induction c with
  | nil =>
    by_cases h : k = k' <;> simp [ctxInsert, ctxLookup, h]
  | cons p rest ih =>
    obtain ⟨a, b⟩ := p
    by_cases hak : a = k
    · subst hak
      by_cases hk' : a = k' <;> simp [ctxInsert, ctxLookup, hk']
    · by_cases hk' : a = k'
      · subst hk'
        simp [ctxInsert, ctxLookup, hak, Ne.symm hak]
      · simp [ctxInsert, ctxLookup, hak, hk', ih]

lemma ctxLookup_eq_none_iff (c : Context) (k : String) :
    ctxLookup c k = none ↔ k ∉ ctxKeys c := by
  induction c with
  | nil => simp [ctxLookup, ctxKeys]
  | cons p rest ih =>
    obtain ⟨a, b⟩ := p
    by_cases hak : a = k
    · subst hak
      simp [ctxLookup, ctxKeys]
    · simp [ctxLookup, hak, ctxKeys, ih, Ne.symm hak]

lemma ctxKeys_ctxInsert_present (c : Context) (k : String) (v : Value)
    (h : (ctxLookup c k).isSome) : ctxKeys (ctxInsert c k v) = ctxKeys c := by
  induction c with
  | nil => simp [ctxLookup] at h
  | cons p rest ih =>
    obtain ⟨a, b⟩ := p
    by_cases hak : a = k
    · subst hak
      simp [ctxInsert, ctxKeys]
    · simp only [ctxLookup, if_neg hak] at h
      simp [ctxInsert, hak, ctxKeys] at ih ⊢
      exact ih h

lemma ctxKeys_ctxInsert_absent (c : Context) (k : String) (v : Value)
    (h : ctxLookup c k = none) : ctxKeys (ctxInsert c k v) = ctxKeys c ++ [k] := by
  induction c with
  | nil => simp [ctxInsert, ctxKeys]
  | cons p rest ih =>
    obtain ⟨a, b⟩ := p
    by_cases hak : a = k
    · subst hak
      simp [ctxLookup] at h
    · simp only [ctxLookup, if_neg hak] at h
      simp [ctxInsert, hak, ctxKeys] at ih ⊢
      exact ih h

lemma nodup_ctxInsert (c : Context) (k : String) (v : Value)
    (h : (ctxKeys c).Nodup) : (ctxKeys (ctxInsert c k v)).Nodup := by
  cases hc : ctxLookup c k with
  | some w =>
    rw [ctxKeys_ctxInsert_present c k v (by simp [hc])]
    exact h
  | none =>
    rw [ctxKeys_ctxInsert_absent c k v hc]
    have hk : k ∉ ctxKeys c := (ctxLookup_eq_none_iff c k).mp hc
    simp [List.nodup_append, h, hk]

/-! ### Result-map lemmas -/

lemma ctxLookup_filterKeys (q : String → Bool) (c : Context) (k : String) :
    ctxLookup (c.filter (fun p => q p.1)) k = if q k then ctxLookup c k else none := by
  induction c with
  | nil => simp [ctxLookup]
  | cons p rest ih =>
    obtain ⟨a, b⟩ := p
    by_cases hak : a = k
    · subst hak
      cases hq : q a <;> simp [List.filter, ctxLookup, hq, ih]
    · cases hq : q a <;> simp [List.filter, ctxLookup, hq, hak, ih]

lemma ctxLookup_foldl_insert (l : List (String × Value)) (m : Context) (k : String)
    (h : (l.map Prod.fst).Nodup) :
    ctxLookup (l.foldl (fun m p => ctxInsert m p.1 p.2) m) k =
      match ctxLookup l k with
      | some v => some v
      | none => ctxLookup m k := by
  induction l generalizing m with
  | nil => simp [ctxLookup]
  | cons p rest ih =>
    obtain ⟨a, b⟩ := p
    simp only [List.map_cons, List.nodup_cons] at h
    obtain ⟨ha, hnd⟩ := h
    by_cases hak : a = k
    · subst hak
      have hrest : ctxLookup rest a = none := by
        rw [ctxLookup_eq_none_iff]
        simpa [ctxKeys] using ha
      simp [List.foldl_cons, ih _ hnd, ctxLookup, hrest, ctxLookup_ctxInsert]
    · have hka : ¬ k = a := fun hh => hak hh.symm
      simp [List.foldl_cons, ih _ hnd, ctxLookup, hak, ctxLookup_ctxInsert, hka]

lemma fillOutputs_foldl_lookup (outs : List String) (c : Context) (m : Context) (k : String) :
    ctxLookup (outs.foldl (fun m k' => ctxInsert m k' (ctxGet c k')) m) k =
      if k ∈ outs then some (ctxGet c k) else ctxLookup m k := by
  induction outs generalizing m with
  | nil => simp
  | cons o os ih =>
    by_cases hko : k = o
    · subst hko
      by_cases hmem : k ∈ os <;>
        simp [List.foldl_cons, ih, hmem, ctxLookup_ctxInsert]
    · have hok : ¬ o = k := fun hh => hko hh.symm
      by_cases hmem : k ∈ os <;>
        simp [List.foldl_cons, ih, hmem, ctxLookup_ctxInsert, hko, hok]

lemma fillOutputs_lookup (outs : List String) (c : Context) (k : String) :
    ctxLookup (fillOutputs outs c) k = if k ∈ outs then some (ctxGet c k) else none := by
  unfold fillOutputs
  rw [fillOutputs_foldl_lookup]
  simp [ctxLookup]

lemma commitOutputs_lookup (outs : List String) (c : Context) (k : String) :
    ctxLookup (commitOutputs outs c) k =
      if k ∈ outs ∧ ctxLookup c k = none then some Value.vnone else ctxLookup c k := by
  unfold commitOutputs
  induction outs generalizing c with
  | nil => simp
  | cons o os ih =>
    rw [List.foldl_cons, ih]
    by_cases hko : k = o
    · subst hko
      cases hc : ctxLookup c k with
      | some v =>
        have h1 : ctxLookup (ctxInsert c k (ctxGet c k)) k = some v := by
          rw [ctxLookup_ctxInsert]
          simp [ctxGet, hc]
        simp [h1, hc]
      | none =>
        have h1 : ctxLookup (ctxInsert c k (ctxGet c k)) k = some Value.vnone := by
          rw [ctxLookup_ctxInsert]
          simp [ctxGet, hc]
        simp [h1, hc]
    · have hok : ¬ o = k := fun hh => hko hh.symm
      have h1 : ctxLookup (ctxInsert c o (ctxGet c o)) k = ctxLookup c k := by
        rw [ctxLookup_ctxInsert]
        simp [hok]
      rw [h1]
      by_cases hmem : k ∈ os <;> simp [hmem, hko]

lemma buildResult_lookup (job : Job) (c : Context) (k : String)
    (hnd : (ctxKeys c).Nodup) :
    ctxLookup (buildResult job c) k =
      if startsDollar k ∧ (ctxLookup c k).isSome then ctxLookup c k
      else if k ∈ job.output then some (ctxGet c k) else none := by
  unfold buildResult sysOverlay
  have hfnd : ((c.filter (fun p => startsDollar p.1)).map Prod.fst).Nodup := by
    have hsub : List.Sublist ((c.filter (fun p => startsDollar p.1)).map Prod.fst)
        (c.map Prod.fst) := List.Sublist.map Prod.fst (List.filter_sublist c)
    exact hnd.sublist hsub
  rw [ctxLookup_foldl_insert _ _ _ hfnd]
  rw [ctxLookup_filterKeys (fun s => startsDollar s) c k]
  rw [fillOutputs_lookup]
  by_cases hs : startsDollar k
  · cases hc : ctxLookup c k with
    | some v => simp [hs, hc]
    | none => simp [hs, hc]
  · simp [hs]

/-! ### Hook/action behavioral hypotheses -/

/-- A hook leaves the binding of `key` unchanged whenever it returns
normally. -/
def preservesKey (h : JobHook) (key : String) : Prop :=
  ∀ x y, h x = Except.ok y → ctxLookup y key = ctxLookup x key

/-- Every registered hook of the engine preserves `key`. -/
def hooksPreserve (engine : WorkflowEngine) (key : String) : Prop :=
  ∀ name h, engine.hooks_registry name = some h → preservesKey h key

/-- Every registered action of the engine preserves `key`. -/
def actionsPreserve (engine : WorkflowEngine) (key : String) : Prop :=
  ∀ name f, engine.actions_registry name = some f →
    ∀ ins x y, f ins x = Except.ok y → ctxLookup y key = ctxLookup x key

/-! ### Execution-path lemmas -/

lemma failPath_isError (engine : WorkflowEngine) (job : Job) (e : EValue)
    (c : Context) (tr : List Event) :
    ∃ e', (failPath engine job e c tr).1 = Except.error e' := by
  unfold failPath
  cases hF : resolveHook engine job.on_except with
  | none => exact ⟨e, rfl⟩
  | some h =>
    dsimp only
    cases hc : h (ctxInsert c "$job_status" (Value.vstr "FAILED")) with
    | ok c' => exact ⟨e, rfl⟩
    | error e2 => exact ⟨e2, rfl⟩

lemma execute_step_ok_trace (engine : WorkflowEngine) (step : Step) (c : Context)
    (c' : Context) (h : (execute_step engine step c).1 = Except.ok c') :
    (execute_step engine step c).2 = [Event.action step.action] := by
  unfold execute_step at h ⊢
  revert h
  cases hA : engine.actions_registry step.action with
  | none => intro h; exact absurd h (by simp)
  | some f =>
    dsimp only
    cases hM : step.input.find? (fun i => (ctxLookup c i).isNone) with
    | some i => intro h; exact absurd h (by simp)
    | none =>
      dsimp only
      cases hf : f (step.input.map (fun i => (ctxLookup c i).getD (Value.vstr i))) c with
      | error e => intro h; exact absurd h (by simp)
      | ok c1 => intro h; rfl

lemma execute_step_error_trace (engine : WorkflowEngine) (step : Step) (c : Context)
    (e : EValue) (h : (execute_step engine step c).1 = Except.error e) :
    (execute_step engine step c).2 = [] ∨
      (execute_step engine step c).2 = [Event.action step.action] := by
  unfold execute_step at h ⊢
  revert h
  cases hA : engine.actions_registry step.action with
  | none => intro h; exact Or.inl rfl
  | some f =>
    dsimp only
    cases hM : step.input.find? (fun i => (ctxLookup c i).isNone) with
    | some i => intro h; exact Or.inl rfl
    | none =>
      dsimp only
      cases hf : f (step.input.map (fun i => (ctxLookup c i).getD (Value.vstr i))) c with
      | error e0 => intro h; exact Or.inr rfl
      | ok c1 => intro h; exact absurd h (by simp)

lemma callProgress_trace (engine : WorkflowEngine) (c : Context) :
    (callProgress engine c).2.filter Event.isAction = [] := by
  unfold callProgress
  cases hL : ctxLookup c "$on_progress" with
  | none => rfl
  | some v =>
    cases v with
    | vstr s => rfl
    | vnone => rfl
    | vhook name =>
      dsimp only
      cases hH : engine.hooks_registry name with
      | none => rfl
      | some h => simp [Event.isAction]

lemma callProgress_ok_preserve (engine : WorkflowEngine) (key : String)
    (hk : hooksPreserve engine key) (c c2 : Context)
    (h : (callProgress engine c).1 = Except.ok c2) :
    ctxLookup c2 key = ctxLookup c key := by
  unfold callProgress at h
  revert h
  cases hL : ctxLookup c "$on_progress" with
  | none =>
    intro h
    obtain rfl : c = c2 := Except.ok.inj h
    rfl
  | some v =>
    cases v with
    | vstr s => intro h; exact absurd h (by simp)
    | vnone => intro h; exact absurd h (by simp)
    | vhook name =>
      dsimp only
      cases hH : engine.hooks_registry name with
      | none => intro h; exact absurd h (by simp)
      | some hk' =>
        dsimp only
        intro h
        exact hk name hk' hH c c2 h

lemma runStep_ok_trace (engine : WorkflowEngine) (step : Step) (c : Context)
    (h : (runStep engine step c).2.1 = none) :
    (runStep engine step c).2.2.filter Event.isAction = [Event.action step.action] := by
  unfold runStep at h ⊢
  dsimp only at h ⊢
  revert h
  cases hp : (callProgress engine (ctxInsert c "$current_step" (Value.vstr step.action))).1 with
  | error e => intro h; exact absurd h (by simp)
  | ok c2 =>
    dsimp only
    cases hq : (execute_step engine step c2).1 with
    | error e => intro h; exact absurd h (by simp)
    | ok c3 =>
      intro h
      dsimp only
      rw [List.filter_append, callProgress_trace,
        execute_step_ok_trace engine step c2 c3 hq]
      rfl

lemma runStep_error_trace (engine : WorkflowEngine) (step : Step) (c : Context)
    (e : EValue) (h : (runStep engine step c).2.1 = some e) :
    (runStep engine step c).2.2.filter Event.isAction = [] ∨
      (runStep engine step c).2.2.filter Event.isAction = [Event.action step.action] := by
  unfold runStep at h ⊢
  dsimp only at h ⊢
  revert h
  cases hp : (callProgress engine (ctxInsert c "$current_step" (Value.vstr step.action))).1 with
  | error e0 =>
    intro h
    dsimp only
    rw [callProgress_trace]
    exact Or.inl rfl
  | ok c2 =>
    dsimp only
    cases hq : (execute_step engine step c2).1 with
    | ok c3 => intro h; exact absurd h (by simp)
    | error e0 =>
      intro h
      dsimp only
      rw [List.filter_append, callProgress_trace]
      rcases execute_step_error_trace engine step c2 e0 hq with h2 | h2 <;> rw [h2]
      · exact Or.inl rfl
      · exact Or.inr (by simp [Event.isAction])

lemma runStep_fail_current (engine : WorkflowEngine) (step : Step) (c : Context)
    (e : EValue) (hcur : hooksPreserve engine "$current_step")
    (h : (runStep engine step c).2.1 = some e) :
    ctxLookup (runStep engine step c).1 "$current_step" = some (Value.vstr step.action) := by
  unfold runStep at h ⊢
  dsimp only at h ⊢
  revert h
  cases hp : (callProgress engine (ctxInsert c "$current_step" (Value.vstr step.action))).1 with
  | error e0 =>
    intro h
    dsimp only
    rw [ctxLookup_ctxInsert]
    simp
  | ok c2 =>
    dsimp only
    cases hq : (execute_step engine step c2).1 with
    | ok c3 => intro h; exact absurd h (by simp)
    | error e0 =>
      intro h
      dsimp only
      rw [callProgress_ok_preserve engine "$current_step" hcur _ _ hp, ctxLookup_ctxInsert]
      simp

lemma runSteps_ok_trace (engine : WorkflowEngine) (steps : List Step) (c : Context)
    (h : (runSteps engine steps c).2.1 = none) :
    (runSteps engine steps c).2.2.filter Event.isAction =
      steps.map (fun s => Event.action s.action) := by
  induction steps generalizing c with
  | nil => rfl
  | cons s rest ih =>
    unfold runSteps at h ⊢
    dsimp only at h ⊢
    revert h
    cases hs : (runStep engine s c).2.1 with
    | some e => intro h; exact absurd h (by simp)
    | none =>
      intro h
      dsimp only at h ⊢
      rw [List.filter_append, runStep_ok_trace engine s c hs,
        ih (runStep engine s c).1 h]
      rfl

lemma runSteps_append_fail (engine : WorkflowEngine) (pre : List Step) (failing : Step)
    (post : List Step) (c : Context) (e : EValue)
    (hpre2 : (runSteps engine pre c).2.1 = none)
    (hfail : (runStep engine failing ((runSteps engine pre c).1)).2.1 = some e) :
    (runSteps engine (pre ++ failing :: post) c).1 =
      (runStep engine failing ((runSteps engine pre c).1)).1 ∧
    (runSteps engine (pre ++ failing :: post) c).2.1 = some e ∧
    (runSteps engine (pre ++ failing :: post) c).2.2 =
      (runSteps engine pre c).2.2 ++
        (runStep engine failing ((runSteps engine pre c).1)).2.2 := by
  induction pre generalizing c with
  | nil =>
    try rw [List.nil_append]
    unfold runSteps at hfail ⊢
    try dsimp only at hfail ⊢
    cases hs : (runStep engine failing c).2.1 with
    | none =>
      try rw [hs] at hfail
      exact absurd hfail (by simp [hs])
    | some e0 =>
      try rw [hs] at hfail
      try rw [hs]
      try dsimp only
      obtain rfl : e0 = e := Option.some.inj hfail
      exact ⟨rfl, rfl, rfl⟩
  | cons s pre' ih =>
    try rw [List.cons_append]
    unfold runSteps at hpre2 hfail ⊢
    try dsimp only at hpre2 hfail ⊢
    cases hs : (runStep engine s c).2.1 with
    | some e0 =>
      try rw [hs] at hpre2
      try dsimp only at hpre2
      exact absurd hpre2 (by simp [hs])
    | none =>
      try rw [hs] at hpre2
      try rw [hs] at hfail
      try rw [hs]
      try dsimp only at hpre2
      try dsimp only at hfail
      try dsimp only
      obtain ⟨ih1, ih2, ih3⟩ := ih (runStep engine s c).1 hpre2 hfail
      rw [ih1, ih2, ih3]
      exact ⟨rfl, rfl, (List.append_assoc _ _ _).symm⟩

lemma execute_step_preserve (engine : WorkflowEngine) (step : Step) (c : Context)
    (c' : Context) (key : String)
    (hact : actionsPreserve engine key)
    (hsome : (ctxLookup c key).isSome)
    (h : (execute_step engine step c).1 = Except.ok c') :
    ctxLookup c' key = ctxLookup c key := by
  unfold execute_step at h
  revert h
  cases hA : engine.actions_registry step.action with
  | none => intro h; exact absurd h (by simp)
  | some f =>
    dsimp only
    cases hM : step.input.find? (fun i => (ctxLookup c i).isNone) with
    | some i => intro h; exact absurd h (by simp)
    | none =>
      dsimp only
      cases hf : f (step.input.map (fun i => (ctxLookup c i).getD (Value.vstr i))) c with
      | error e => intro h; exact absurd h (by simp)
      | ok c1 =>
        intro h
        obtain rfl : commitOutputs step.output c1 = c' := Except.ok.inj h
        have hc1 : ctxLookup c1 key = ctxLookup c key :=
          hact step.action f hA _ c c1 hf
        rw [commitOutputs_lookup]
        rw [hc1]
        have : ¬ (key ∈ step.output ∧ ctxLookup c key = none) := by
          intro hcon
          rw [hcon.2] at hsome
          exact absurd hsome (by simp)
        simp only [this, if_false]

lemma execute_job_ok_status (engine : WorkflowEngine) (job : Job) (runId : String)
    (c : Context)
    (hfin : ∀ h, resolveHook engine job.on_finish = some h → preservesKey h "$job_status")
    (hrun : (execute_job engine job runId).1 = Except.ok c) :
    ctxLookup c "$job_status" = some (Value.vstr "FINISHED") := by
  unfold execute_job at hrun
  dsimp only at hrun
  revert hrun
  cases hR : (runSteps engine job.steps (initContext engine job runId)).2.1 with
  | some e =>
    intro hrun
    obtain ⟨e', hfp⟩ := failPath_isError engine job e
      (runSteps engine job.steps (initContext engine job runId)).1
      (runSteps engine job.steps (initContext engine job runId)).2.2
    rw [hfp] at hrun
    exact absurd hrun (by simp)
  | none =>
    dsimp only
    cases hF : resolveHook engine job.on_finish with
    | none =>
      intro hrun
      obtain rfl : ctxInsert (runSteps engine job.steps (initContext engine job runId)).1
          "$job_status" (Value.vstr "FINISHED") = c := Except.ok.inj hrun
      rw [ctxLookup_ctxInsert]
      simp
    | some h =>
      dsimp only
      cases hc : h (ctxInsert (runSteps engine job.steps (initContext engine job runId)).1
          "$job_status" (Value.vstr "FINISHED")) with
      | ok c4 =>
        intro hrun
        obtain rfl : c4 = c := Except.ok.inj hrun
        rw [hfin h hF _ _ hc, ctxLookup_ctxInsert]
        simp
      | error e =>
        intro hrun
        obtain ⟨e', hfp⟩ := failPath_isError engine job e
          (ctxInsert (runSteps engine job.steps (initContext engine job runId)).1
            "$job_status" (Value.vstr "FINISHED"))
          ((runSteps engine job.steps (initContext engine job runId)).2.2 ++
            [Event.finishHook (ctxLookup (ctxInsert
              (runSteps engine job.steps (initContext engine job runId)).1
              "$job_status" (Value.vstr "FINISHED")) "$job_status")])
        rw [hfp] at hrun
        exact absurd hrun (by simp)

/-- The per-step event pattern the engine produces when a progress hook is
bound: one progress event (with `$current_step` already set to the step's
action) followed by that step's action invocation. -/
def stepTrace : List Step → List Event
  | [] => []
  | s :: rest =>
    Event.progress (some (Value.vstr s.action)) :: Event.action s.action :: stepTrace rest

lemma stepTrace_no_terminal (steps : List Step) :
    (stepTrace steps).filter (fun e => !(e.isTerminalHook)) = stepTrace steps := by
  induction steps with
  | nil => rfl
  | cons s rest ih =>
    simp only [stepTrace, List.filter_cons]
    have h1 : (!(Event.progress (some (Value.vstr s.action))).isTerminalHook) = true := rfl
    have h2 : (!(Event.action s.action).isTerminalHook) = true := rfl
    rw [h1, h2]
    simp only [if_true]
    rw [ih]

lemma callProgress_bound (engine : WorkflowEngine) (c : Context) (pname : String)
    (h : JobHook)
    (hb : ctxLookup c "$on_progress" = some (Value.vhook pname))
    (hreg : engine.hooks_registry pname = some h) :
    callProgress engine c = (h c, [Event.progress (ctxLookup c "$current_step")]) := by
  unfold callProgress
  rw [hb]
  dsimp only
  rw [hreg]

lemma runStep_progress (engine : WorkflowEngine) (s : Step) (c : Context)
    (pname : String) (h : JobHook)
    (hreg : engine.hooks_registry pname = some h)
    (hact : actionsPreserve engine "$on_progress")
    (hhp : hooksPreserve engine "$on_progress")
    (hb : ctxLookup c "$on_progress" = some (Value.vhook pname))
    (hok : (runStep engine s c).2.1 = none) :
    (runStep engine s c).2.2 =
      [Event.progress (some (Value.vstr s.action)), Event.action s.action] ∧
    ctxLookup (runStep engine s c).1 "$on_progress" = some (Value.vhook pname) := by
  have hb1 : ctxLookup (ctxInsert c "$current_step" (Value.vstr s.action)) "$on_progress" =
      some (Value.vhook pname) := by
    rw [ctxLookup_ctxInsert, if_neg (by decide)]
    exact hb
  unfold runStep at hok ⊢
  dsimp only at hok ⊢
  rw [callProgress_bound engine _ pname h hb1 hreg] at hok ⊢
  dsimp only at hok ⊢
  revert hok
  cases hh : h (ctxInsert c "$current_step" (Value.vstr s.action)) with
  | error e => intro hok; exact absurd hok (by simp)
  | ok c2 =>
    dsimp only
    cases hq : (execute_step engine s c2).1 with
    | error e => intro hok; exact absurd hok (by simp)
    | ok c3 =>
      intro hok
      dsimp only
      constructor
      · rw [execute_step_ok_trace engine s c2 c3 hq, ctxLookup_ctxInsert]
        simp
      · have h2 : ctxLookup c2 "$on_progress" = some (Value.vhook pname) := by
          rw [hhp pname h hreg _ _ hh]
          exact hb1
        have h3 := execute_step_preserve engine s c2 c3 "$on_progress" hact
          (by simp [h2]) hq
        rw [h3, h2]

lemma runSteps_progress (engine : WorkflowEngine) (steps : List Step) (c : Context)
    (pname : String) (h : JobHook)
    (hreg : engine.hooks_registry pname = some h)
    (hact : actionsPreserve engine "$on_progress")
    (hhp : hooksPreserve engine "$on_progress")
    (hb : ctxLookup c "$on_progress" = some (Value.vhook pname))
    (hok : (runSteps engine steps c).2.1 = none) :
    (runSteps engine steps c).2.2 = stepTrace steps ∧
    ctxLookup (runSteps engine steps c).1 "$on_progress" = some (Value.vhook pname) := by
  induction steps generalizing c with
  | nil => exact ⟨rfl, hb⟩
  | cons s rest ih =>
    unfold runSteps at hok ⊢
    dsimp only at hok ⊢
    revert hok
    cases hs : (runStep engine s c).2.1 with
    | some e => intro hok; exact absurd hok (by simp)
    | none =>
      intro hok
      dsimp only at hok ⊢
      obtain ⟨h1, h2⟩ := runStep_progress engine s c pname h hreg hact hhp hb hs
      obtain ⟨h3, h4⟩ := ih (runStep engine s c).1 h2 hok
      rw [h1, h3]
      exact ⟨rfl, h4⟩

/-! ### Concrete registries and jobs used by witnesses and counterexamples -/

/-- An engine with empty registries. -/
def engEmpty : WorkflowEngine := ⟨fun _ => none, fun _ => none⟩

/-- An engine with one action, `"noop"`, that leaves the context unchanged. -/
def engNoop : WorkflowEngine :=
  ⟨fun n => if n = "noop" then some (fun _ c => Except.ok c) else none, fun _ => none⟩

/-- An engine with one action, `"act"`, that leaves the context unchanged. -/
def engAct : WorkflowEngine :=
  ⟨fun n => if n = "act" then some (fun _ c => Except.ok c) else none, fun _ => none⟩

/-- A trivial job used to build concrete futures. -/
def jobW8 : Job := ⟨"w8", [], [], [], none, none, none⟩

/-! ### Claim theorems -/

/-- Claim C9: registering two actions under the same name raises no error
and the second registration silently replaces the first: after both
registrations, resolving that name yields the second function (last
registration wins).  (`register_action` is total in this model — the
re-registration path has no error case — and resolution returns the most
recent function.) -/
theorem register_action_last_wins_C9 (engine : WorkflowEngine) (name : String)
    (f g : ActionFunction) :
    (register_action (register_action engine name f) name g).actions_registry name =
      some g := by
  unfold register_action
  simp

/-- Claim C8: `JobFuture.wait` is idempotent on failure: once a call has
raised (returned) the captured exception, every subsequent call on the
resulting future state raises the same exception and leaves the state
fixed. -/
theorem wait_failure_idempotent_C8 (jf jf' : JobFuture) (e : EValue)
    (h : JobFuture.wait jf = (Except.error e, jf')) :
    JobFuture.wait jf' = (Except.error e, jf') := by
  obtain ⟨fut, job, exc⟩ := jf
  unfold JobFuture.wait at h ⊢
  dsimp only at h
  cases fut with
  | error e0 =>
    cases exc with
    | none =>
      dsimp only at h
      obtain rfl : jf' = ⟨Except.error e0, job, some e0⟩ := (congrArg Prod.snd h).symm
      obtain rfl : e0 = e := Except.error.inj (congrArg Prod.fst h)
      rfl
    | some ex =>
      dsimp only at h
      obtain rfl : jf' = ⟨Except.error e0, job, some ex⟩ := (congrArg Prod.snd h).symm
      obtain rfl : e0 = e := Except.error.inj (congrArg Prod.fst h)
      rfl
  | ok ctx =>
    cases exc with
    | none =>
      dsimp only at h
      exact absurd (congrArg Prod.fst h) (by simp)
    | some ex =>
      dsimp only at h
      obtain rfl : jf' = ⟨Except.ok ctx, job, some ex⟩ := (congrArg Prod.snd h).symm
      obtain rfl : ex = e := Except.error.inj (congrArg Prod.fst h)
      rfl

/-- Witness for C8 at a concrete failed future. -/
theorem wait_failure_idempotent_C8_witness :
    JobFuture.wait ⟨Except.error (EValue.userError "boom"), jobW8,
        some (EValue.userError "boom")⟩ =
      (Except.error (EValue.userError "boom"),
        ⟨Except.error (EValue.userError "boom"), jobW8, some (EValue.userError "boom")⟩) :=
  wait_failure_idempotent_C8 ⟨Except.error (EValue.userError "boom"), jobW8, none⟩
    ⟨Except.error (EValue.userError "boom"), jobW8, some (EValue.userError "boom")⟩
    (EValue.userError "boom") rfl

/-- Claim C3 (amended): `execute_step` resolves the action first, failing
with `UnregisteredActionError` when the name is not registered, and only
then checks the declared inputs, failing with `MissingInputError` on the
first absent one.  A step that both names an unregistered action and
references an absent key therefore fails with `UnregisteredActionError`. -/
theorem execute_step_order_C3 (engine : WorkflowEngine) (step : Step)
    (context : Context) :
    (engine.actions_registry step.action = none →
      execute_step engine step context =
        (Except.error (EValue.unregisteredAction step.action), [])) ∧
    (∀ j, engine.actions_registry step.action ≠ none →
      step.input.find? (fun i => (ctxLookup context i).isNone) = some j →
      execute_step engine step context =
        (Except.error (EValue.missingInput j), [])) := by
  constructor
  · intro hA
    unfold execute_step
    rw [hA]
  · intro j hA hM
    unfold execute_step
    cases hA' : engine.actions_registry step.action with
    | none => exact absurd hA' hA
    | some f =>
      try rw [hA']
      dsimp only
      rw [hM]

/-- Witness for C3: a concrete step with an unregistered action. -/
theorem execute_step_order_C3_witness :
    execute_step engEmpty ⟨"gx", ["miss0"], []⟩ [] =
      (Except.error (EValue.unregisteredAction "gx"), []) :=
  (execute_step_order_C3 engEmpty ⟨"gx", ["miss0"], []⟩ []).1 rfl

/-- Counterexample to C3 as stated: a step whose input key `"miss"` is
absent from the (empty) context and whose action `"ghostA"` is
unregistered raises `UnregisteredActionError`, not `MissingInputError`. -/
theorem execute_step_order_C3_counterexample :
    ctxLookup [] "miss" = none ∧
    "miss" ∈ (⟨"ghostA", ["miss"], []⟩ : Step).input ∧
    execute_step engEmpty ⟨"ghostA", ["miss"], []⟩ [] =
      (Except.error (EValue.unregisteredAction "ghostA"), []) ∧
    (execute_step engEmpty ⟨"ghostA", ["miss"], []⟩ []).1 ≠
      Except.error (EValue.missingInput "miss") :=
  ⟨rfl, List.mem_singleton.mpr rfl, rfl,
    fun hcon => EValue.noConfusion (Except.error.inj
      (show Except.error (EValue.unregisteredAction "ghostA") =
        Except.error (EValue.missingInput "miss") from hcon))⟩

/-- Claim C6 (amended): when a declared input key is absent from the
context, `execute_step` never invokes the action (no action event is
emitted); when the step's action is moreover registered, the failure is
`MissingInputError` for some absent declared input. -/
theorem missing_input_no_action_C6 (engine : WorkflowEngine) (step : Step)
    (context : Context) (i : String)
    (hi : i ∈ step.input) (hmiss : ctxLookup context i = none) :
    (execute_step engine step context).2 = [] ∧
    (∀ f, engine.actions_registry step.action = some f →
      ∃ j, j ∈ step.input ∧ ctxLookup context j = none ∧
        execute_step engine step context =
          (Except.error (EValue.missingInput j), [])) := by
  have hsome : (step.input.find? (fun i' => (ctxLookup context i').isNone)).isSome := by
    rw [List.find?_isSome]
    exact ⟨i, hi, by simp [hmiss]⟩
  obtain ⟨j, hj⟩ := Option.isSome_iff_exists.mp hsome
  have hjmem : j ∈ step.input := List.mem_of_find?_eq_some hj
  have hjnone : ctxLookup context j = none := by
    have := List.find?_some hj
    simpa using this
  constructor
  · unfold execute_step
    cases hA : engine.actions_registry step.action with
    | none =>
      try rw [hA]
      rfl
    | some f =>
      try rw [hA]
      dsimp only
      rw [hj]
  · intro f hA
    refine ⟨j, hjmem, hjnone, ?_⟩
    unfold execute_step
    try rw [hA]
    dsimp only
    rw [hj]

/-- Witness for C6 with a registered action and a missing input. -/
theorem missing_input_no_action_C6_witness :
    ∃ j, j ∈ (⟨"act", ["needed"], []⟩ : Step).input ∧ ctxLookup [] j = none ∧
      execute_step engAct ⟨"act", ["needed"], []⟩ [] =
        (Except.error (EValue.missingInput j), []) :=
  (missing_input_no_action_C6 engAct ⟨"act", ["needed"], []⟩ [] "needed"
    (List.mem_singleton.mpr rfl) rfl).2 (fun _ c => Except.ok c) rfl

/-- Counterexample to C6 as stated: with the action also unregistered, the
error is `UnregisteredActionError`, not `MissingInputError` (the action
check comes first in the source). -/
theorem missing_input_no_action_C6_counterexample :
    "vanished" ∈ (⟨"ghostB", ["vanished"], []⟩ : Step).input ∧
    ctxLookup [] "vanished" = none ∧
    execute_step engEmpty ⟨"ghostB", ["vanished"], []⟩ [] =
      (Except.error (EValue.unregisteredAction "ghostB"), []) ∧
    (execute_step engEmpty ⟨"ghostB", ["vanished"], []⟩ []).1 ≠
      Except.error (EValue.missingInput "vanished") :=
  ⟨List.mem_singleton.mpr rfl, rfl, rfl,
    fun hcon => EValue.noConfusion (Except.error.inj
      (show Except.error (EValue.unregisteredAction "ghostB") =
        Except.error (EValue.missingInput "vanished") from hcon))⟩

/-- Claim C4 (amended): the output-commit pass of `execute_step` re-binds
each declared output key to its current value: a key the action left with a
value keeps that value, while a key absent from the context after the
action is created and bound to `None` (the missing-value marker) — it does
not stay absent. -/
theorem execute_step_commit_C4 (engine : WorkflowEngine) (step : Step)
    (context : Context) (f : ActionFunction) (cA : Context)
    (hf : engine.actions_registry step.action = some f)
    (hmiss : step.input.find? (fun i => (ctxLookup context i).isNone) = none)
    (ha : f (step.input.map (fun i => (ctxLookup context i).getD (Value.vstr i))) context =
      Except.ok cA) :
    execute_step engine step context =
      (Except.ok (commitOutputs step.output cA), [Event.action step.action]) ∧
    ∀ k, ctxLookup (commitOutputs step.output cA) k =
      if k ∈ step.output ∧ ctxLookup cA k = none then some Value.vnone
      else ctxLookup cA k := by
  constructor
  · unfold execute_step
    try rw [hf]
    dsimp only
    rw [hmiss]
    dsimp only
    rw [ha]
  · intro k
    exact commitOutputs_lookup step.output cA k

/-- Witness for C4 at a concrete no-op action. -/
theorem execute_step_commit_C4_witness :
    execute_step engNoop ⟨"noop", [], ["k"]⟩ [] =
      (Except.ok (commitOutputs ["k"] []), [Event.action "noop"]) :=
  (execute_step_commit_C4 engNoop ⟨"noop", [], ["k"]⟩ [] (fun _ c => Except.ok c) []
    rfl rfl rfl).1

/-- Counterexample to C4 as stated: output key `"k"` is absent before the
step and the action sets nothing, yet after `execute_step` the key exists,
bound to `None` — it was created, not left absent. -/
theorem execute_step_commit_C4_counterexample :
    ctxLookup [] "k" = none ∧
    execute_step engNoop ⟨"noop", [], ["k"]⟩ [] =
      (Except.ok [("k", Value.vnone)], [Event.action "noop"]) ∧
    ctxLookup [("k", Value.vnone)] "k" = some Value.vnone :=
  ⟨rfl, rfl, rfl⟩

/-- Claim C5 (amended): a hook name absent from the hook registry is
silently skipped — the job behaves exactly as if it declared no hook at
all; the engine never raises `UnregisteredHookError` (the class exists in
the source but is never raised). -/
theorem unregistered_hooks_skipped_C5 (engine : WorkflowEngine) (name : String)
    (env : Context) (steps : List Step) (output : List String)
    (nf ne np : String) (runId : String)
    (hf : engine.hooks_registry nf = none)
    (he : engine.hooks_registry ne = none)
    (hp : engine.hooks_registry np = none) :
    execute_job engine ⟨name, env, steps, output, some nf, some ne, some np⟩ runId =
      execute_job engine ⟨name, env, steps, output, none, none, none⟩ runId := by
  have hinit : initContext engine ⟨name, env, steps, output, some nf, some ne, some np⟩ runId =
      initContext engine ⟨name, env, steps, output, none, none, none⟩ runId := by
    unfold initContext bindProgress
    dsimp only
    rw [hp]
    rfl
  have hre : resolveHook engine (some ne) = none := he
  have hrf : resolveHook engine (some nf) = none := hf
  unfold execute_job
  dsimp only
  rw [hinit]
  cases hR : (runSteps engine steps
      (initContext engine ⟨name, env, steps, output, none, none, none⟩ runId)).2.1 with
  | some e =>
    try rw [hR]
    dsimp only
    unfold failPath
    dsimp only
    rw [hre]
    rfl
  | none =>
    try rw [hR]
    dsimp only
    rw [hrf]
    rfl

/-- Witness for C5: with an empty hook registry, a job naming all three
hooks behaves exactly like one naming none. -/
theorem unregistered_hooks_skipped_C5_witness :
    execute_job engEmpty ⟨"j", [], [], [], some "nf", some "ne", some "np"⟩ "r" =
      execute_job engEmpty ⟨"j", [], [], [], none, none, none⟩ "r" :=
  unregistered_hooks_skipped_C5 engEmpty "j" [] [] [] "nf" "ne" "np" "r" rfl rfl rfl

/-- Counterexample to C5 as stated: a job whose `on_finish` names the
unregistered hook `"nope"` completes successfully — the engine does not
fail with `UnregisteredHookError("nope")`. -/
theorem unregistered_hooks_skipped_C5_counterexample :
    execute_job engEmpty ⟨"j", [], [], [], some "nope", none, none⟩ "rid" =
      (Except.ok [("$job_run_id", Value.vstr "rid"),
        ("$job_status", Value.vstr "FINISHED")], []) ∧
    (execute_job engEmpty ⟨"j", [], [], [], some "nope", none, none⟩ "rid").1 ≠
      Except.error (EValue.unregisteredHook "nope") :=
  ⟨rfl, fun hcon => Except.noConfusion
    (show Except.ok [("$job_run_id", Value.vstr "rid"),
        ("$job_status", Value.vstr "FINISHED")] =
      Except.error (EValue.unregisteredHook "nope") from hcon)⟩

/-- Claim C1: for a job run that completed successfully (all steps
succeeded and the finish hook, if any, returned normally and preserved the
engine-owned `$job_status`), `JobFuture.wait` returns exactly the
`job.output` keys (each bound to its final-context value, with `None` as
the missing-value marker for absent keys) overlaid with every `$`-prefixed
system key of the final context, and `$job_status` in that map is
`FINISHED`. -/
theorem wait_success_C1 (engine : WorkflowEngine) (job : Job) (runId : String)
    (c : Context)
    (hfin : ∀ h, resolveHook engine job.on_finish = some h → preservesKey h "$job_status")
    (hrun : (execute_job engine job runId).1 = Except.ok c)
    (hnd : (ctxKeys c).Nodup) :
    (JobFuture.wait ⟨Except.ok c, job, none⟩).1 = Except.ok (buildResult job c) ∧
    ctxLookup (buildResult job c) "$job_status" = some (Value.vstr "FINISHED") ∧
    (∀ k, k ∈ job.output → ctxLookup (buildResult job c) k = some (ctxGet c k)) ∧
    (∀ k v, startsDollar k = true → ctxLookup c k = some v →
      ctxLookup (buildResult job c) k = some v) ∧
    (∀ k, (ctxLookup (buildResult job c) k).isSome = true →
      k ∈ job.output ∨ (startsDollar k = true ∧ (ctxLookup c k).isSome = true)) := by
  have hstatus := execute_job_ok_status engine job runId c hfin hrun
  refine ⟨rfl, ?_, ?_, ?_, ?_⟩
  · rw [buildResult_lookup job c _ hnd, if_pos ⟨by decide, by simp [hstatus]⟩]
    exact hstatus
  · intro k hk
    rw [buildResult_lookup job c k hnd]
    by_cases hs : startsDollar k
    · cases hc : ctxLookup c k with
      | some v =>
        rw [if_pos ⟨hs, by simp [hc]⟩]
        simp [ctxGet, hc]
      | none =>
        rw [if_neg (fun hcon => by simp [hc] at hcon), if_pos hk]
    · rw [if_neg (fun hcon => hs hcon.1), if_pos hk]
  · intro k v hs hv
    rw [buildResult_lookup job c k hnd, if_pos ⟨hs, by simp [hv]⟩]
    exact hv
  · intro k hk
    rw [buildResult_lookup job c k hnd] at hk
    by_cases hc : startsDollar k = true ∧ (ctxLookup c k).isSome = true
    · exact Or.inr hc
    · rw [if_neg hc] at hk
      by_cases ho : k ∈ job.output
      · exact Or.inl ho
      · rw [if_neg ho] at hk
        exact absurd hk (by simp)

/-- An engine with one action, `"mk"`, that binds `"out"`. -/
def engMk : WorkflowEngine :=
  ⟨fun n => if n = "mk" then
      some (fun _ c => Except.ok (ctxInsert c "out" (Value.vstr "made")))
    else none,
   fun _ => none⟩

/-- A one-step job whose declared outputs include a key never produced. -/
def jobW1 : Job := ⟨"w1", [("seed", Value.vstr "s")], [⟨"mk", ["seed"], ["out"]⟩],
  ["out", "absentK"], none, none, none⟩

/-- The final context of `jobW1`'s successful run. -/
def ctxW1 : Context :=
  [("seed", Value.vstr "s"), ("$job_run_id", Value.vstr "r"),
   ("$job_status", Value.vstr "FINISHED"), ("$current_step", Value.vstr "mk"),
   ("out", Value.vstr "made")]

/-- Witness for C1 at a concrete successful run: `$job_status` in the
result map is `FINISHED`. -/
theorem wait_success_C1_witness :
    ctxLookup (buildResult jobW1 ctxW1) "$job_status" =
      some (Value.vstr "FINISHED") :=
  (wait_success_C1 engMk jobW1 "r" ctxW1
    (fun _ hcon => Option.noConfusion hcon) rfl (by decide)).2.1

/-- Claim C2: when the steps before the failing one all succeed and the
failing step's turn raises `e`, the job fails with that same exception
(provided the `on_except` hook, if dispatched, returns normally — a raising
hook would replace it), no step after the failing one is ever executed (the
action events are exactly the earlier steps' actions plus at most the
failing step's own invocation), the context at failure carries
`$current_step` equal to the failing step's action name (provided the
progress hook preserves that engine-owned key), and when the job names a
registered `on_except` hook the trace ends with its invocation, whose
snapshot shows `$job_status = FAILED` and `$current_step` equal to the
failing step's action — the hook runs before the error reaches the
caller. -/
theorem execute_job_failure_C2 (engine : WorkflowEngine) (job : Job) (runId : String)
    (pre post : List Step) (failing : Step) (cpre cf : Context) (e : EValue)
    (tr1 tr2 : List Event)
    (hsteps : job.steps = pre ++ failing :: post)
    (hpre : runSteps engine pre (initContext engine job runId) = (cpre, none, tr1))
    (hfail : runStep engine failing cpre = (cf, some e, tr2))
    (hcur : hooksPreserve engine "$current_step")
    (hexc : ∀ h, resolveHook engine job.on_except = some h → ∀ x, ∃ y, h x = Except.ok y) :
    (execute_job engine job runId).1 = Except.error e ∧
    tr1.filter Event.isAction = pre.map (fun s => Event.action s.action) ∧
    (tr2.filter Event.isAction = [] ∨
      tr2.filter Event.isAction = [Event.action failing.action]) ∧
    ctxLookup cf "$current_step" = some (Value.vstr failing.action) ∧
    (resolveHook engine job.on_except = none →
      (execute_job engine job runId).2 = tr1 ++ tr2) ∧
    (∀ h, resolveHook engine job.on_except = some h →
      (execute_job engine job runId).2 = (tr1 ++ tr2) ++
        [Event.exceptHook (some (Value.vstr "FAILED"))
          (some (Value.vstr failing.action))]) := by
  have hpre1 : (runSteps engine pre (initContext engine job runId)).1 = cpre := by
    rw [hpre]
  have hpre2 : (runSteps engine pre (initContext engine job runId)).2.1 = none := by
    rw [hpre]
  have hpre3 : (runSteps engine pre (initContext engine job runId)).2.2 = tr1 := by
    rw [hpre]
  have hfail1 : (runStep engine failing cpre).1 = cf := by rw [hfail]
  have hfail2 : (runStep engine failing cpre).2.1 = some e := by rw [hfail]
  have hfail3 : (runStep engine failing cpre).2.2 = tr2 := by rw [hfail]
  obtain ⟨hA1, hA2, hA3⟩ := runSteps_append_fail engine pre failing post
    (initContext engine job runId) e hpre2 (by rw [hpre1]; exact hfail2)
  have hR1 : (runSteps engine job.steps (initContext engine job runId)).1 = cf := by
    rw [hsteps, hA1, hpre1, hfail1]
  have hR2 : (runSteps engine job.steps (initContext engine job runId)).2.1 = some e := by
    rw [hsteps, hA2]
  have hR3 : (runSteps engine job.steps (initContext engine job runId)).2.2 = tr1 ++ tr2 := by
    rw [hsteps, hA3, hpre3, hpre1, hfail3]
  have hcf : ctxLookup cf "$current_step" = some (Value.vstr failing.action) := by
    rw [← hfail1]
    exact runStep_fail_current engine failing cpre e hcur hfail2
  have htr1 : tr1.filter Event.isAction = pre.map (fun s => Event.action s.action) := by
    rw [← hpre3]
    exact runSteps_ok_trace engine pre (initContext engine job runId) hpre2
  have htr2 : tr2.filter Event.isAction = [] ∨
      tr2.filter Event.isAction = [Event.action failing.action] := by
    rw [← hfail3]
    exact runStep_error_trace engine failing cpre e hfail2
  unfold execute_job
  dsimp only
  rw [hR2]
  dsimp only
  rw [hR1, hR3]
  unfold failPath
  dsimp only
  cases hF : resolveHook engine job.on_except with
  | none =>
    try rw [hF]
    dsimp only
    refine ⟨rfl, htr1, htr2, hcf, fun _ => rfl, ?_⟩
    intro h' hcon
    simp [hF] at hcon
  | some h =>
    try rw [hF]
    dsimp only
    obtain ⟨y, hy⟩ := hexc h hF (ctxInsert cf "$job_status" (Value.vstr "FAILED"))
    rw [hy]
    dsimp only
    have hev1 : ctxLookup (ctxInsert cf "$job_status" (Value.vstr "FAILED")) "$job_status" =
        some (Value.vstr "FAILED") := by
      rw [ctxLookup_ctxInsert]
      simp
    have hev2 : ctxLookup (ctxInsert cf "$job_status" (Value.vstr "FAILED")) "$current_step" =
        some (Value.vstr failing.action) := by
      rw [ctxLookup_ctxInsert, if_neg (by decide)]
      exact hcf
    rw [hev1, hev2]
    refine ⟨rfl, htr1, htr2, hcf, ?_, fun h' hh' => rfl⟩
    intro hcon
    simp [hF] at hcon

/-- An engine with one action, `"boom"`, that raises. -/
def engBoom : WorkflowEngine :=
  ⟨fun n => if n = "boom" then
      some (fun _ _ => Except.error (EValue.userError "kaboom"))
    else none,
   fun _ => none⟩

/-- A one-step job whose only step raises. -/
def jobW2 : Job := ⟨"w2", [], [⟨"boom", [], []⟩], [], none, none, none⟩

/-- Witness for C2 at a concrete failing run: the job fails with the
action's own exception. -/
theorem execute_job_failure_C2_witness :
    (execute_job engBoom jobW2 "r").1 = Except.error (EValue.userError "kaboom") :=
  (execute_job_failure_C2 engBoom jobW2 "r" [] [] ⟨"boom", [], []⟩
    [("$job_run_id", Value.vstr "r"), ("$job_status", Value.vstr "RUNNING")]
    [("$job_run_id", Value.vstr "r"), ("$job_status", Value.vstr "RUNNING"),
      ("$current_step", Value.vstr "boom")]
    (EValue.userError "kaboom") [] [Event.action "boom"]
    rfl rfl rfl
    (fun _ _ hreg => Option.noConfusion hreg)
    (fun _ hcon => Option.noConfusion hcon)).1

/-- Claim C7: for a successful run of a job that declares a registered
`on_progress` hook (with the engine's hooks and actions preserving the
engine-owned `$on_progress` binding), the non-terminal event trace is
exactly, per step in order: one progress-hook invocation whose snapshot
shows `$current_step` already set to the upcoming step's action name,
followed by that step's action invocation — the hook runs exactly once per
step, before the step's action. -/
theorem on_progress_per_step_C7 (engine : WorkflowEngine) (job : Job) (runId : String)
    (pname : String) (h : JobHook) (c : Context)
    (hname : job.on_progress = some pname)
    (hreg : engine.hooks_registry pname = some h)
    (hact : actionsPreserve engine "$on_progress")
    (hhp : hooksPreserve engine "$on_progress")
    (hrun : (execute_job engine job runId).1 = Except.ok c) :
    (execute_job engine job runId).2.filter (fun e => !(e.isTerminalHook)) =
      stepTrace job.steps := by
  have hbind : ctxLookup (initContext engine job runId) "$on_progress" =
      some (Value.vhook pname) := by
    unfold initContext bindProgress
    rw [hname]
    dsimp only
    rw [hreg]
    simp only [Option.isSome_some, if_true]
    rw [ctxLookup_ctxInsert]
    simp
  unfold execute_job at hrun ⊢
  dsimp only at hrun ⊢
  revert hrun
  cases hR : (runSteps engine job.steps (initContext engine job runId)).2.1 with
  | some e =>
    intro hrun
    obtain ⟨e', hfp⟩ := failPath_isError engine job e
      (runSteps engine job.steps (initContext engine job runId)).1
      (runSteps engine job.steps (initContext engine job runId)).2.2
    rw [hfp] at hrun
    exact absurd hrun (by simp)
  | none =>
    obtain ⟨htr, hcarry⟩ := runSteps_progress engine job.steps
      (initContext engine job runId) pname h hreg hact hhp hbind hR
    try dsimp only
    cases hF : resolveHook engine job.on_finish with
    | none =>
      intro hrun
      rw [htr]
      exact stepTrace_no_terminal job.steps
    | some hfn =>
      dsimp only
      cases hc : hfn (ctxInsert (runSteps engine job.steps
          (initContext engine job runId)).1 "$job_status" (Value.vstr "FINISHED")) with
      | ok c4 =>
        intro hrun
        dsimp only
        rw [List.filter_append, htr, stepTrace_no_terminal]
        have hterm : List.filter (fun e => !(e.isTerminalHook))
            [Event.finishHook (ctxLookup (ctxInsert (runSteps engine job.steps
              (initContext engine job runId)).1 "$job_status" (Value.vstr "FINISHED"))
              "$job_status")] = [] := rfl
        rw [hterm, List.append_nil]
      | error e2 =>
        intro hrun
        obtain ⟨e', hfp⟩ := failPath_isError engine job e2
          (ctxInsert (runSteps engine job.steps (initContext engine job runId)).1
            "$job_status" (Value.vstr "FINISHED"))
          ((runSteps engine job.steps (initContext engine job runId)).2.2 ++
            [Event.finishHook (ctxLookup (ctxInsert (runSteps engine job.steps
              (initContext engine job runId)).1 "$job_status" (Value.vstr "FINISHED"))
              "$job_status")])
        rw [hfp] at hrun
        exact absurd hrun (by simp)

/-- An engine with an action `"mk7"` (binds `"out7"`) and an observing
progress hook `"p7"`. -/
def engProg : WorkflowEngine :=
  ⟨fun n => if n = "mk7" then
      some (fun _ c => Except.ok (ctxInsert c "out7" (Value.vstr "v7")))
    else none,
   fun n => if n = "p7" then some (fun c => Except.ok c) else none⟩

/-- A one-step job that declares the registered progress hook `"p7"`. -/
def jobW7 : Job := ⟨"w7", [], [⟨"mk7", [], ["out7"]⟩], ["out7"], none, none, some "p7"⟩

lemma engProg_actionsPreserve (key : String) : actionsPreserve engProg key ∨
    key = "out7" := by
  by_cases hk : key = "out7"
  · exact Or.inr hk
  · left
    intro name f hreg ins x y hxy
    revert hreg
    unfold engProg
    dsimp only
    by_cases hn : name = "mk7"
    · rw [if_pos hn]
      intro hreg
      obtain rfl : (fun _ c => Except.ok (ctxInsert c "out7" (Value.vstr "v7")) :
          ActionFunction) = f := Option.some.inj hreg
      obtain rfl : ctxInsert x "out7" (Value.vstr "v7") = y := Except.ok.inj hxy
      rw [ctxLookup_ctxInsert, if_neg (fun hcon => hk hcon.symm)]
    · rw [if_neg hn]
      intro hreg
      exact Option.noConfusion hreg

lemma engProg_hooksPreserve (key : String) : hooksPreserve engProg key := by
  intro name h hreg x y hxy
  revert hreg
  unfold engProg
  dsimp only
  by_cases hn : name = "p7"
  · rw [if_pos hn]
    intro hreg
    obtain rfl : (fun c => Except.ok c : JobHook) = h := Option.some.inj hreg
    obtain rfl : x = y := Except.ok.inj hxy
    rfl
  · rw [if_neg hn]
    intro hreg
    exact Option.noConfusion hreg

/-- Witness for C7 at a concrete one-step run with a registered progress
hook. -/
theorem on_progress_per_step_C7_witness :
    (execute_job engProg jobW7 "r").2.filter (fun e => !(e.isTerminalHook)) =
      stepTrace jobW7.steps :=
  on_progress_per_step_C7 engProg jobW7 "r" "p7" (fun c => Except.ok c)
    [("$job_run_id", Value.vstr "r"), ("$job_status", Value.vstr "FINISHED"),
     ("$on_progress", Value.vhook "p7"), ("$current_step", Value.vstr "mk7"),
     ("out7", Value.vstr "v7")]
    rfl rfl
    (Or.resolve_right (engProg_actionsPreserve "$on_progress") (by decide))
    (engProg_hooksPreserve "$on_progress")
    rfl

lemma bindProgress_lookup_ne (engine : WorkflowEngine) (job : Job) (c : Context)
    (k : String) (hk : ¬ "$on_progress" = k) :
    ctxLookup (bindProgress engine job c) k = ctxLookup c k := by
  unfold bindProgress
  cases job.on_progress with
  | none => rfl
  | some n =>
    dsimp only
    by_cases hs : (engine.hooks_registry n).isSome
    · rw [if_pos hs, ctxLookup_ctxInsert, if_neg hk]
    · rw [if_neg hs]

lemma bindProgress_nodup (engine : WorkflowEngine) (job : Job) (c : Context)
    (h : (ctxKeys c).Nodup) : (ctxKeys (bindProgress engine job c)).Nodup := by
  unfold bindProgress
  cases job.on_progress with
  | none => exact h
  | some n =>
    dsimp only
    by_cases hs : (engine.hooks_registry n).isSome
    · rw [if_pos hs]
      exact nodup_ctxInsert _ _ _ h
    · rw [if_neg hs]
      exact h

/-- Claim C10 (amended): for a job with an empty steps list (whose env has
unique keys, does not pre-bind `$current_step`, whose declared outputs do
not list `$current_step`, and whose `on_finish` hook, if registered,
returns its context unchanged), `execute_job` succeeds, and `wait()`
returns a map carrying `$job_run_id`, `$job_status = FINISHED` and no
`$current_step` key, in which every declared non-system output key is bound
to its env value when the env provides one and to `None` (the missing-value
marker) otherwise. -/
theorem empty_steps_C10 (engine : WorkflowEngine) (job : Job) (runId : String)
    (hsteps : job.steps = [])
    (hnd : (ctxKeys job.env).Nodup)
    (henv : ctxLookup job.env "$current_step" = none)
    (hout : "$current_step" ∉ job.output)
    (hfin : ∀ h, resolveHook engine job.on_finish = some h → ∀ x, h x = Except.ok x) :
    ∃ c, (execute_job engine job runId).1 = Except.ok c ∧
      (JobFuture.wait ⟨Except.ok c, job, none⟩).1 = Except.ok (buildResult job c) ∧
      ctxLookup (buildResult job c) "$job_status" = some (Value.vstr "FINISHED") ∧
      ctxLookup (buildResult job c) "$job_run_id" = some (Value.vstr runId) ∧
      ctxLookup (buildResult job c) "$current_step" = none ∧
      ∀ k, k ∈ job.output → startsDollar k = false →
        ctxLookup (buildResult job c) k =
          some ((ctxLookup job.env k).getD Value.vnone) := by
  refine ⟨ctxInsert (initContext engine job runId) "$job_status" (Value.vstr "FINISHED"),
    ?_, rfl, ?_, ?_, ?_, ?_⟩
  · unfold execute_job
    dsimp only
    rw [hsteps]
    dsimp only [runSteps]
    cases hF : resolveHook engine job.on_finish with
    | none => rfl
    | some h =>
      dsimp only
      rw [hfin h hF _]
  all_goals {
    have hstat : ctxLookup (ctxInsert (initContext engine job runId) "$job_status"
        (Value.vstr "FINISHED")) "$job_status" = some (Value.vstr "FINISHED") := by
      rw [ctxLookup_ctxInsert]
      simp
    have hrid : ctxLookup (ctxInsert (initContext engine job runId) "$job_status"
        (Value.vstr "FINISHED")) "$job_run_id" = some (Value.vstr runId) := by
      rw [ctxLookup_ctxInsert, if_neg (by decide)]
      unfold initContext
      rw [bindProgress_lookup_ne engine job _ _ (by decide),
        ctxLookup_ctxInsert, if_neg (by decide), ctxLookup_ctxInsert]
      simp
    have hcur : ctxLookup (ctxInsert (initContext engine job runId) "$job_status"
        (Value.vstr "FINISHED")) "$current_step" = none := by
      rw [ctxLookup_ctxInsert, if_neg (by decide)]
      unfold initContext
      rw [bindProgress_lookup_ne engine job _ _ (by decide),
        ctxLookup_ctxInsert, if_neg (by decide), ctxLookup_ctxInsert, if_neg (by decide)]
      exact henv
    have hndc : (ctxKeys (ctxInsert (initContext engine job runId) "$job_status"
        (Value.vstr "FINISHED"))).Nodup := by
      apply nodup_ctxInsert
      unfold initContext
      apply bindProgress_nodup
      exact nodup_ctxInsert _ _ _ (nodup_ctxInsert _ _ _ hnd)
    first
    | -- `$job_status` in the result map
      (rw [buildResult_lookup job _ _ hndc, if_pos ⟨by decide, by simp [hstat]⟩]
       exact hstat)
    | -- `$job_run_id` in the result map
      (rw [buildResult_lookup job _ _ hndc, if_pos ⟨by decide, by simp [hrid]⟩]
       exact hrid)
    | -- `$current_step` absent from the result map
      (rw [buildResult_lookup job _ _ hndc,
        if_neg (fun hcon => by simp [hcur] at hcon), if_neg hout])
    | -- declared non-system output keys carry their env value (or `None`)
      (intro k hk hks
       have huser : ctxLookup (ctxInsert (initContext engine job runId) "$job_status"
           (Value.vstr "FINISHED")) k = ctxLookup job.env k := by
         rw [ctxLookup_ctxInsert,
           if_neg (fun hcon => by rw [← hcon] at hks; exact absurd hks (by decide))]
         unfold initContext
         rw [bindProgress_lookup_ne engine job _ _
             (fun hcon => by rw [← hcon] at hks; exact absurd hks (by decide)),
           ctxLookup_ctxInsert,
           if_neg (fun hcon => by rw [← hcon] at hks; exact absurd hks (by decide)),
           ctxLookup_ctxInsert,
           if_neg (fun hcon => by rw [← hcon] at hks; exact absurd hks (by decide))]
       rw [buildResult_lookup job _ _ hndc,
         if_neg (fun hcon => by rw [hks] at hcon; exact Bool.noConfusion hcon.1),
         if_pos hk]
       unfold ctxGet
       rw [huser])
  }

/-- An empty-steps job whose declared output key is supplied by the env. -/
def jobC10 : Job := ⟨"c10", [("a", Value.vstr "x")], [], ["a"], none, none, none⟩

/-- Witness for C10 at a concrete empty-steps job. -/
theorem empty_steps_C10_witness :
    ∃ c, (execute_job engEmpty ⟨"w10", [("a", Value.vstr "x")], [], ["b"],
        none, none, none⟩ "r").1 = Except.ok c ∧
      (JobFuture.wait ⟨Except.ok c, ⟨"w10", [("a", Value.vstr "x")], [], ["b"],
        none, none, none⟩, none⟩).1 =
        Except.ok (buildResult ⟨"w10", [("a", Value.vstr "x")], [], ["b"],
          none, none, none⟩ c) ∧
      ctxLookup (buildResult ⟨"w10", [("a", Value.vstr "x")], [], ["b"],
        none, none, none⟩ c) "$job_status" = some (Value.vstr "FINISHED") ∧
      ctxLookup (buildResult ⟨"w10", [("a", Value.vstr "x")], [], ["b"],
        none, none, none⟩ c) "$job_run_id" = some (Value.vstr "r") ∧
      ctxLookup (buildResult ⟨"w10", [("a", Value.vstr "x")], [], ["b"],
        none, none, none⟩ c) "$current_step" = none ∧
      ∀ k, k ∈ (⟨"w10", [("a", Value.vstr "x")], [], ["b"],
          none, none, none⟩ : Job).output → startsDollar k = false →
        ctxLookup (buildResult ⟨"w10", [("a", Value.vstr "x")], [], ["b"],
          none, none, none⟩ c) k =
          some ((ctxLookup [("a", Value.vstr "x")] k).getD Value.vnone) :=
  empty_steps_C10 engEmpty ⟨"w10", [("a", Value.vstr "x")], [], ["b"], none, none, none⟩
    "r" rfl (by decide) rfl (by decide) (fun _ hcon => Option.noConfusion hcon)

/-- Counterexample to C10 as stated: an empty-steps job whose output key
`"a"` is supplied by the env; `wait()` binds `"a"` to the env value, not to
the missing-value marker `None`. -/
theorem empty_steps_C10_counterexample :
    (execute_job engEmpty jobC10 "rid").1 =
      Except.ok [("a", Value.vstr "x"), ("$job_run_id", Value.vstr "rid"),
        ("$job_status", Value.vstr "FINISHED")] ∧
    (JobFuture.wait ⟨Except.ok [("a", Value.vstr "x"),
        ("$job_run_id", Value.vstr "rid"),
        ("$job_status", Value.vstr "FINISHED")], jobC10, none⟩).1 =
      Except.ok [("a", Value.vstr "x"), ("$job_run_id", Value.vstr "rid"),
        ("$job_status", Value.vstr "FINISHED")] ∧
    ctxLookup [("a", Value.vstr "x"), ("$job_run_id", Value.vstr "rid"),
      ("$job_status", Value.vstr "FINISHED")] "a" = some (Value.vstr "x") ∧
    some (Value.vstr "x") ≠ some Value.vnone :=
  ⟨rfl, rfl, rfl, by decide⟩
